import Mathlib

/-!
Shallow embedding of the payment/cache subsystem of the AgentChain SDK
(src/utils/cache.ts and src/services/PaymentProcessor.ts), together with
theorems settling the specification claims about it.

Conventions of the embedding:
* Machine time (`Date.now()`, `new Date()`) is an explicit `Int` parameter
  threaded through every operation that reads the clock.
* The JavaScript `Map` is an association list in insertion order: `set` on a
  fresh key appends at the end, `set` on a present key overwrites in place,
  and iteration order is list order, so the head is the oldest binding.
* JavaScript truthiness is modelled where the source relies on it: a string
  is falsy exactly when it is empty, the number 0 is falsy, and `undefined`
  (an absent optional) is falsy.
* Fallible operations return their result in `Except`, and every operation
  that can mutate state also returns the new state; an error branch returns
  the state unchanged exactly when the source throws before mutating.
-/

namespace AgentChain

/-! ## Time-bounded cache (src/utils/cache.ts) -/

/-- One cache slot: `CacheEntry<T> = data, timestamp, ttl`. -/
structure CacheEntry (α : Type) where
  data : α
  timestamp : Int
  ttl : Int
  deriving Repr, DecidableEq

/-- Cache configuration (`CacheConfig`): defaultTTL, maxSize, cleanupInterval. -/
structure CacheConfig where
  defaultTTL : Int := 5 * 60 * 1000
  maxSize : Nat := 1000
  cleanupInterval : Int := 60 * 1000
  deriving Repr, DecidableEq

/-- The cache object: its configuration and its backing `Map` modelled as an
association list in insertion order. -/
structure CacheModel (α : Type) where
  config : CacheConfig
  store : List (String × CacheEntry α)
  deriving Repr, DecidableEq

/-- Lookup in a JavaScript `Map` modelled as an association list
(`Map.get`): the first binding with the key. -/
def listLookup (k : String) : List (String × β) → Option β
  | [] => none
  | (k', e) :: rest => if k' = k then some e else listLookup k rest

/-- `Map.delete`: remove the binding with the key, if any. -/
def listDelete (k : String) : List (String × β) → List (String × β)
  | [] => []
  | (k', e) :: rest => if k' = k then rest else (k', e) :: listDelete k rest

/-- `Map.set`: overwrite in place when the key is bound, else append at the
end (JavaScript Map keeps the original insertion position on overwrite). -/
def listInsert (k : String) (e : β) : List (String × β) → List (String × β)
  | [] => [(k, e)]
  | (k', e') :: rest => if k' = k then (k, e) :: rest else (k', e') :: listInsert k e rest

/-- The ttl actually stored by `set`: the source computes
`ttl || this.config.defaultTTL`, so an explicit ttl of 0 is falsy and falls
back to the default, as does an absent ttl. -/
def resolveTTL (cfg : CacheConfig) (ttl : Option Int) : Int :=
  match ttl with
  | some t => if t = 0 then cfg.defaultTTL else t
  | none => cfg.defaultTTL

/-- `Cache.set(key, data, ttl?)` at clock `now`. When the store has reached
`maxSize` the source reads the first key of the map (`keys().next().value`)
and deletes it only when that key is truthy, i.e. non-empty; then it inserts. -/
def cacheSet (c : CacheModel α) (key : String) (data : α) (ttl : Option Int) (now : Int) :
    CacheModel α :=
  let entry : CacheEntry α := ⟨data, now, resolveTTL c.config ttl⟩
  let store₁ :=
    if c.store.length ≥ c.config.maxSize then
      match c.store with
      | [] => c.store
      | (k₀, _) :: _ => if k₀ = "" then c.store else listDelete k₀ c.store
    else c.store
  { c with store := listInsert key entry store₁ }

/-- `Cache.get(key)` at clock `now`: absent gives `none`; an entry older than
its ttl (strictly) is deleted and `none` is returned; otherwise the data. -/
def cacheGet (c : CacheModel α) (key : String) (now : Int) : Option α × CacheModel α :=
  match listLookup key c.store with
  | none => (none, c)
  | some e =>
    if now - e.timestamp > e.ttl then
      (none, { c with store := listDelete key c.store })
    else
      (some e.data, c)

/-- The background sweep (`cleanup`): delete every entry whose age strictly
exceeds its own ttl, at clock `now`. -/
def cacheCleanup (c : CacheModel α) (now : Int) : CacheModel α :=
  { c with store := c.store.filter (fun p => now - p.2.timestamp ≤ p.2.ttl) }

/-- `Cache.getOrSet(key, fetcher, ttl?)` instantiated at a value type that has
a JavaScript null (`Option β`): the source compares the result of `get` with
`null`, which conflates an absent or expired entry with a stored null, then
invokes the fetcher, stores its result and returns it. The returned `Bool`
records whether the fetcher was invoked. -/
def getOrSet (c : CacheModel (Option β)) (key : String) (fetchVal : Option β)
    (ttl : Option Int) (now : Int) : Option β × CacheModel (Option β) × Bool :=
  let (r, c₁) := cacheGet c key now
  match r.bind id with
  | some b => (some b, c₁, false)
  | none => (fetchVal, cacheSet c₁ key fetchVal ttl now, true)

/-! ## Payment data model (src/types/index.ts) -/

/-- Enum `PaymentStatus` with string values pending, confirmed, failed,
cancelled; every value is a non-empty string, hence truthy. -/
inductive PaymentStatus where
  | pending
  | confirmed
  | failed
  | cancelled
  deriving Repr, DecidableEq

/-- Interface `PaymentRequest`. Dates are clock readings (`Int`); `amount`
is a JavaScript number carrying fractional SOL amounts, modelled as `Rat`. -/
structure PaymentRequest where
  amount : Rat
  currency : String
  recipient : String
  reference : Option String := none
  memo : Option String := none
  expiresAt : Option Int := none
  deriving Repr, DecidableEq

/-- Interface `Payment`. `metadata` is an uninterpreted record, carried as an
optional association list and never inspected by the subsystem. -/
structure Payment where
  id : String
  agentId : Option String := none
  userId : String
  amount : Rat
  currency : String
  txSignature : String
  status : PaymentStatus
  createdAt : Int
  confirmedAt : Option Int := none
  metadata : Option (List (String × String)) := none
  deriving Repr, DecidableEq

/-- The error kinds the processor can raise, one per throw site; the spec
taxonomy groups the four validation kinds under the name InvalidPayment. -/
inductive PayErr where
  | invalidAmount
  | expiredRequest
  | emptyRecipient
  | invalidRecipientFormat
  | walletNotConnected
  | transferFailed
  | transferNotConfirmed
  | notImplemented
  | notFound
  | oracleFailure
  deriving Repr, DecidableEq

/-- The spec files validation failures under the single kind InvalidPayment. -/
def PayErr.isInvalidPayment : PayErr → Bool
  | .invalidAmount => true
  | .expiredRequest => true
  | .emptyRecipient => true
  | .invalidRecipientFormat => true
  | _ => false

/-! ## PaymentProcessor state (src/services/PaymentProcessor.ts) -/

/-- Processor state: the authoritative `payments` map and the shared cache,
viewed at the `payment:` key namespace it uses for Payment records. -/
structure PPState where
  payments : List (String × Payment)
  cache : CacheModel Payment
  deriving Repr, DecidableEq

/-- The cache key used for a payment id. -/
def payKey (pid : String) : String := "payment:" ++ pid

/-- One hour in milliseconds, the cache ttl used for Payment records. -/
def hourMs : Int := 60 * 60 * 1000

/-- `getPayment(paymentId)` at clock `now`: cache-first read-through; on a
cache miss with a map hit the cache is repopulated with a one-hour ttl.
(The source never throws here on valid state; the catch wrapper is inert.) -/
def getPayment (s : PPState) (pid : String) (now : Int) : PPState × Option Payment :=
  match cacheGet s.cache (payKey pid) now with
  | (some p, c₁) => ({ s with cache := c₁ }, some p)
  | (none, c₁) =>
    match listLookup pid s.payments with
    | some p => ({ s with cache := cacheSet c₁ (payKey pid) p (some hourMs) now }, some p)
    | none => ({ s with cache := c₁ }, none)

/-- Confirmation levels reported by the status oracle. -/
inductive ConfLevel where
  | processed
  | confirmed
  | finalized
  deriving Repr, DecidableEq

/-- The `value` field of a signature status response. -/
structure SigStatusValue where
  confirmationStatus : Option ConfLevel := none
  err : Option String := none
  deriving Repr, DecidableEq

/-- `getSignatureStatus` response: `status.value` may be null. -/
structure SigStatus where
  value : Option SigStatusValue := none
  deriving Repr, DecidableEq

/-- The first branch guard of `verifyPayment`:
`status.value?.confirmationStatus` is confirmed or finalized. -/
def isConfirmedLevel (st : SigStatus) : Bool :=
  match st.value with
  | some v => v.confirmationStatus = some ConfLevel.confirmed ∨
      v.confirmationStatus = some ConfLevel.finalized
  | none => false

/-- The second branch guard of `verifyPayment`: `status.value?.err` is set. -/
def hasOracleErr (st : SigStatus) : Bool :=
  match st.value with
  | some v => v.err.isSome
  | none => false

/-- `verifyPayment(paymentId)` at clock `now`, with the outcome of the status
oracle call passed as `oracle` (an exception from it is `Except.error`).
A confirmed or finalized level sets status CONFIRMED and stamps
`confirmedAt := now`; a reported error sets status FAILED; both persist to
the map and the cache (one-hour ttl); otherwise the payment is returned
unchanged. The current status of the payment is never consulted. -/
def verifyPayment (s : PPState) (pid : String) (oracle : Except String SigStatus)
    (now : Int) : PPState × Except PayErr Payment :=
  match getPayment s pid now with
  | (s₁, none) => (s₁, .error .notFound)
  | (s₁, some payment) =>
    match oracle with
    | .error _ => (s₁, .error .oracleFailure)
    | .ok st =>
      if isConfirmedLevel st then
        let updated := { payment with status := .confirmed, confirmedAt := some now }
        ({ payments := listInsert pid updated s₁.payments,
           cache := cacheSet s₁.cache (payKey pid) updated (some hourMs) now }, .ok updated)
      else if hasOracleErr st then
        let updated := { payment with status := .failed }
        ({ payments := listInsert pid updated s₁.payments,
           cache := cacheSet s₁.cache (payKey pid) updated (some hourMs) now }, .ok updated)
      else (s₁, .ok payment)

/-- Options object of `processPayment`. -/
structure ProcessPaymentOptions where
  agentId : Option String := none
  metadata : Option (List (String × String)) := none
  deriving Repr, DecidableEq

/-- Result of the native-transfer collaborator (`sendSOL`). -/
structure TransferResult where
  signature : String
  confirmed : Bool
  deriving Repr, DecidableEq

/-- The environment a single `processPayment` call observes: whether a
signing session is active, whether the recipient parses as an address
(`publicKeyFromString` throwing is `false`), the outcome of the one transfer
this call would submit, the clock, and the generated payment id. -/
structure ProcEnv where
  walletConnected : Bool
  addressValid : String → Bool
  transfer : Except String TransferResult
  now : Int
  freshId : String

/-- `validatePaymentRequest` as a result: the first failing check wins, in
source order (non-positive amount, expired request, empty recipient via
string falsiness, address-format validation delegated to the collaborator). -/
def validatePaymentRequest (req : PaymentRequest) (env : ProcEnv) : Except PayErr Unit :=
  if req.amount ≤ 0 then .error .invalidAmount
  else if (match req.expiresAt with | some t => decide (t < env.now) | none => false) then
    .error .expiredRequest
  else if req.recipient = "" then .error .emptyRecipient
  else if ¬ env.addressValid req.recipient then .error .invalidRecipientFormat
  else .ok ()

/-- `processPayment(request, userId, options)`: validate, require a connected
wallet, dispatch on currency (only the literal string SOL is implemented),
await the transfer, then create the PENDING Payment, store it in the
authoritative map and mirror it into the cache with a one-hour ttl. Every
error branch leaves the state untouched, matching the source, whose only
mutations follow a successful transfer. -/
def processPayment (s : PPState) (req : PaymentRequest) (userId : String)
    (opts : ProcessPaymentOptions) (env : ProcEnv) : PPState × Except PayErr Payment :=
  match validatePaymentRequest req env with
  | .error e => (s, .error e)
  | .ok () =>
    if ¬ env.walletConnected then (s, .error .walletNotConnected)
    else if req.currency = "SOL" then
      match env.transfer with
      | .error _ => (s, .error .transferFailed)
      | .ok r =>
        if ¬ r.confirmed then (s, .error .transferNotConfirmed)
        else
          let payment : Payment :=
            { id := env.freshId, agentId := opts.agentId, userId := userId,
              amount := req.amount, currency := req.currency,
              txSignature := r.signature, status := .pending,
              createdAt := env.now, confirmedAt := none,
              metadata := opts.metadata }
          ({ payments := listInsert env.freshId payment s.payments,
             cache := cacheSet s.cache (payKey env.freshId) payment (some hourMs) env.now },
           .ok payment)
    else (s, .error .notImplemented)

/-! ## Confirmation poller (`monitorPaymentConfirmation`) -/

/-- One firing of `checkConfirmation` at clock `now`, with the oracle outcome
for this check. Returns the new state, the new attempt counter and whether a
further check is scheduled. The catch branch of the source only logs: it does
not advance the counter and does not reschedule, so it reports no further
check; on a non-terminal status the counter advances and a further check is
scheduled exactly while it stays below the 30-attempt budget. -/
def checkOnce (s : PPState) (pid : String) (attempts : Nat)
    (oracle : Except String SigStatus) (now : Int) : PPState × Nat × Bool :=
  match verifyPayment s pid oracle now with
  | (s₁, .error _) => (s₁, attempts, false)
  | (s₁, .ok p) =>
    if p.status = .confirmed ∨ p.status = .failed then (s₁, attempts, false)
    else
      let attempts₁ := attempts + 1
      (s₁, attempts₁, decide (attempts₁ < 30))

/-- The polling loop, driven by the finite trace of oracle outcomes the
checks would observe (each with its clock reading). The loop never raises:
every checkConfirmation body is wrapped in a try/catch in the source, and the
whole monitor is invoked fire-and-forget, so nothing propagates to callers. -/
def runMonitor (s : PPState) (pid : String) (attempts : Nat) :
    List (Except String SigStatus × Int) → PPState × Nat
  | [] => (s, attempts)
  | (o, t) :: rest =>
    match checkOnce s pid attempts o t with
    | (s₁, a₁, cont) => if cont then runMonitor s₁ pid a₁ rest else (s₁, a₁)

/-! ## Listing (`listPayments`) -/

/-- Filter options of `listPayments`, with absent fields as `none`. -/
structure ListOptions where
  userId : Option String := none
  agentId : Option String := none
  status : Option PaymentStatus := none
  limit : Option Nat := none
  offset : Option Nat := none
  deriving Repr, DecidableEq

/-- The comparator `(a, b) => b.createdAt - a.createdAt` orders by createdAt
descending; the source sort is stable, so the unique stable descending
permutation is produced, which insertion sort with this relation computes. -/
def sortByCreatedAtDesc (ps : List Payment) : List Payment :=
  List.insertionSort (fun a b => b.createdAt ≤ a.createdAt) ps

/-- `listPayments(options)` as the source computes it: each filter guard is a
truthiness test on the destructured field, so an empty-string `userId` or
`agentId` skips its filter (and a supplied status, always a non-empty enum
string, always filters); then the stable descending sort; then
`slice(offset, offset + limit)` with defaults offset 0 and limit 50. -/
def listPayments (payments : List (String × Payment)) (opts : ListOptions) : List Payment :=
  let limit := opts.limit.getD 50
  let offset := opts.offset.getD 0
  let ps := payments.map Prod.snd
  let ps := match opts.userId with
    | some u => if u = "" then ps else ps.filter (fun p => p.userId = u)
    | none => ps
  let ps := match opts.agentId with
    | some a => if a = "" then ps else ps.filter (fun p => p.agentId = some a)
    | none => ps
  let ps := match opts.status with
    | some st => ps.filter (fun p => p.status = st)
    | none => ps
  ((sortByCreatedAtDesc ps).drop offset).take limit

/-- Modelled from the words of the specification for the refinement claim
about listing: filter the map values by equality on every supplied field,
sort by createdAt descending, then apply offset and limit. -/
def listPaymentsSpec (payments : List (String × Payment)) (opts : ListOptions) : List Payment :=
  let limit := opts.limit.getD 50
  let offset := opts.offset.getD 0
  let ps := payments.map Prod.snd
  let ps := match opts.userId with
    | some u => ps.filter (fun p => p.userId = u)
    | none => ps
  let ps := match opts.agentId with
    | some a => ps.filter (fun p => p.agentId = some a)
    | none => ps
  let ps := match opts.status with
    | some st => ps.filter (fun p => p.status = st)
    | none => ps
  ((sortByCreatedAtDesc ps).drop offset).take limit


/-! ## Sequences of cache writes -/

/-- One recorded `Cache.set` call: its key, value, optional ttl and clock. -/
structure SetOp (α : Type) where
  key : String
  data : α
  ttl : Option Int
  now : Int

/-- Apply a sequence of `Cache.set` calls in order. -/
def applySets (c : CacheModel α) : List (SetOp α) → CacheModel α
  | [] => c
  | op :: rest => applySets (cacheSet c op.key op.data op.ttl op.now) rest

/-! ## Concrete instances used by witnesses and counterexamples -/

/-- A cache over `Nat` data holding one entry stored at time 0 with ttl 1000. -/
def exCacheC4 : CacheModel Nat := ⟨{}, [("k", ⟨7, 0, 1000⟩)]⟩

/-- A cache configured with `maxSize := 0`, as the Cache constructor builds
when passed a partial config carrying maxSize 0. -/
def exCacheMax0 : CacheModel Nat := ⟨{ maxSize := 0 }, []⟩

/-- An empty cache configured with `maxSize := 1`. -/
def exCacheMax1 : CacheModel Nat := ⟨{ maxSize := 1 }, []⟩

/-- Two fresh-key writes against the `maxSize := 1` cache. -/
def exOpsC5 : List (SetOp Nat) := [⟨"a", 1, none, 0⟩, ⟨"b", 2, none, 1⟩]

/-- A full cache with `maxSize := 2` whose oldest binding is key a. -/
def exCacheC9 : CacheModel Nat := ⟨{ maxSize := 2 }, [("a", ⟨1, 0, 1000⟩), ("b", ⟨2, 0, 1000⟩)]⟩

/-- A full cache with `maxSize := 2` whose oldest binding carries the
empty-string key, which the eviction guard treats as falsy. -/
def exCacheC9e : CacheModel Nat := ⟨{ maxSize := 2 }, [("", ⟨1, 0, 1000⟩), ("b", ⟨2, 0, 1000⟩)]⟩

/-- An empty cache whose data type carries a JavaScript null (`Option Nat`). -/
def exCacheOpt : CacheModel (Option Nat) := ⟨{}, []⟩

/-- A payment already in the terminal state FAILED. -/
def exPaymentFailed : Payment :=
  { id := "p1", userId := "u1", amount := 1, currency := "SOL",
    txSignature := "sig1", status := .failed, createdAt := 0 }

/-- Processor state holding only the failed payment, with an empty cache. -/
def exStateFailed : PPState := ⟨[("p1", exPaymentFailed)], ⟨{}, []⟩⟩

/-- An oracle response reporting confirmation level finalized. -/
def exOracleFinalized : SigStatus := { value := some { confirmationStatus := some .finalized } }

/-- A payment already in the terminal state CANCELLED. -/
def exPaymentCancelled : Payment :=
  { id := "p2", userId := "u1", amount := 2, currency := "SOL",
    txSignature := "sig2", status := .cancelled, createdAt := 0 }

/-- Processor state holding only the cancelled payment. -/
def exStateCancelled : PPState := ⟨[("p2", exPaymentCancelled)], ⟨{}, []⟩⟩

/-- A payment still PENDING, awaiting confirmation. -/
def exPaymentPending : Payment :=
  { id := "p3", userId := "u1", amount := 1, currency := "SOL",
    txSignature := "sig3", status := .pending, createdAt := 0 }

/-- Processor state holding only the pending payment. -/
def exStatePending : PPState := ⟨[("p3", exPaymentPending)], ⟨{}, []⟩⟩

/-- A polling trace: the first check throws (oracle unreachable), the second
would report finalized. -/
def exTraceC2 : List (Except String SigStatus × Int) :=
  [(.error "oracle unreachable", 5000), (.ok exOracleFinalized, 15000)]

/-- A payment request with amount 0. -/
def exReqZero : PaymentRequest := { amount := 0, currency := "SOL", recipient := "R1" }

/-- A valid payment request in a non-SOL currency. -/
def exReqUSDC : PaymentRequest := { amount := 1, currency := "USDC", recipient := "R1" }

/-- A benign environment: wallet connected, every address valid, transfer
confirmed. -/
def exEnv : ProcEnv :=
  { walletConnected := true, addressValid := fun _ => true,
    transfer := .ok ⟨"sigT", true⟩, now := 0, freshId := "pid1" }

/-- The empty processor state. -/
def exEmptyState : PPState := ⟨[], ⟨{}, []⟩⟩

/-- A stored payment belonging to user alice. -/
def exPaymentAlice : Payment :=
  { id := "p4", userId := "alice", amount := 1, currency := "SOL",
    txSignature := "sig4", status := .pending, createdAt := 10 }

/-- A stored payment belonging to user bob, created later. -/
def exPaymentBob : Payment :=
  { id := "p5", userId := "bob", amount := 1, currency := "SOL",
    txSignature := "sig5", status := .pending, createdAt := 20 }

/-- A two-payment authoritative map. -/
def exPaymentsList : List (String × Payment) := [("p4", exPaymentAlice), ("p5", exPaymentBob)]

instance : IsTotal Payment (fun a b => b.createdAt ≤ a.createdAt) :=
  ⟨fun a b => le_total b.createdAt a.createdAt⟩

instance : IsTrans Payment (fun a b => b.createdAt ≤ a.createdAt) :=
  ⟨fun _ _ _ hab hbc => le_trans hbc hab⟩

/-! Basic lemmas about the backing map. -/

theorem listLookup_listInsert_self (k : String) (e : β)
    (l : List (String × β)) : listLookup k (listInsert k e l) = some e := by
  induction l with
  | nil => simp [listInsert, listLookup]
  | cons hd tl ih =>
    by_cases h : hd.1 = k
    · simp [listInsert, listLookup, h]
    · simpa [listInsert, listLookup, h] using ih

theorem listInsert_length_of_mem (k : String) (e : β)
    (l : List (String × β)) (h : (listLookup k l).isSome) :
    (listInsert k e l).length = l.length := by
  induction l with
  | nil => simp [listLookup] at h
  | cons hd tl ih =>
    by_cases hk : hd.1 = k
    · simp [listInsert, hk]
    · simp [listLookup, hk] at h
      simp [listInsert, hk, ih h]

theorem listInsert_length_of_not_mem (k : String) (e : β)
    (l : List (String × β)) (h : listLookup k l = none) :
    (listInsert k e l).length = l.length + 1 := by
  induction l with
  | nil => simp [listInsert]
  | cons hd tl ih =>
    by_cases hk : hd.1 = k
    · simp [listLookup, hk] at h
    · simp [listLookup, hk] at h
      simp [listInsert, hk, ih h]

theorem listInsert_length_le (k : String) (e : β) (l : List (String × β)) :
    (listInsert k e l).length ≤ l.length + 1 := by
  cases h : listLookup k l with
  | none => exact (listInsert_length_of_not_mem k e l h).le
  | some e' =>
    rw [listInsert_length_of_mem k e l (by simp [h])]
    omega

theorem listLookup_listInsert_ne (k k' : String) (e : β) (l : List (String × β))
    (h : k' ≠ k) : listLookup k' (listInsert k e l) = listLookup k' l := by
  have h' : ∀ m : String, m = k → ¬ (m = k') := by
    rintro m rfl hh
    exact h hh.symm
  induction l with
  | nil => simp [listInsert, listLookup, h' k rfl]
  | cons hd tl ih =>
    by_cases hk : hd.1 = k
    · simp [listInsert, listLookup, hk, h' hd.1 hk, h' k rfl]
    · simp [listInsert, listLookup, hk, ih]

theorem listInsert_eq_append_of_not_mem (k : String) (e : β) (l : List (String × β))
    (h : listLookup k l = none) : listInsert k e l = l ++ [(k, e)] := by
  induction l with
  | nil => simp [listInsert]
  | cons hd tl ih =>
    by_cases hk : hd.1 = k
    · simp [listLookup, hk] at h
    · simp [listLookup, hk] at h
      simp [listInsert, hk, ih h]

theorem mem_of_mem_listInsert (k : String) (e : β) (l : List (String × β))
    (x : String × β) (h : x ∈ listInsert k e l) : x = (k, e) ∨ x ∈ l := by
  induction l with
  | nil =>
    simp [listInsert] at h
    exact Or.inl h
  | cons hd tl ih =>
    by_cases hk : hd.1 = k
    · rw [show hd = (hd.1, hd.2) from rfl, listInsert, if_pos hk] at h
      rcases List.mem_cons.mp h with h' | h'
      · exact Or.inl h'
      · exact Or.inr (List.mem_cons_of_mem _ h')
    · rw [show hd = (hd.1, hd.2) from rfl, listInsert, if_neg hk] at h
      rcases List.mem_cons.mp h with h' | h'
      · exact Or.inr (by simp [h'])
      · rcases ih h' with h'' | h''
        · exact Or.inl h''
        · exact Or.inr (List.mem_cons_of_mem _ h'')

theorem listDelete_cons_self (k : String) (e : β) (l : List (String × β)) :
    listDelete k ((k, e) :: l) = l := by
  simp [listDelete]

theorem listLookup_eq_none_of_not_mem (k : String) (l : List (String × β))
    (h : k ∉ l.map Prod.fst) : listLookup k l = none := by
  induction l with
  | nil => simp [listLookup]
  | cons hd tl ih =>
    rw [List.map_cons, List.mem_cons] at h
    push_neg at h
    have h1 : ¬ (hd.1 = k) := fun hh => h.1 hh.symm
    simp [listLookup, h1]
    exact ih h.2

theorem listLookup_filter_none (k : String) (q : String × β → Bool)
    (l : List (String × β)) (h : listLookup k l = none) :
    listLookup k (l.filter q) = none := by
  induction l with
  | nil => simp [listLookup]
  | cons hd tl ih =>
    by_cases hk : hd.1 = k
    · simp [listLookup, hk] at h
    · simp [listLookup, hk] at h
      by_cases hq : q hd
      · simp [List.filter_cons, hq, listLookup, hk, ih h]
      · simp [List.filter_cons, hq, ih h]

theorem listLookup_filter_of_nodup (k : String) (e : β) (q : String × β → Bool)
    (l : List (String × β)) (h : listLookup k l = some e)
    (hnd : (l.map Prod.fst).Nodup) :
    listLookup k (l.filter q) = if q (k, e) then some e else none := by
  induction l with
  | nil => simp [listLookup] at h
  | cons hd tl ih =>
    simp at hnd
    by_cases hk : hd.1 = k
    · have he : hd = (k, e) := by
        have h2 : hd.2 = e := by simpa [listLookup, hk] using h
        calc hd = (hd.1, hd.2) := rfl
        _ = (k, e) := by rw [hk, h2]
      subst he
      have htl : listLookup k tl = none :=
        listLookup_eq_none_of_not_mem k tl (by simpa using hnd.1)
      by_cases hq : q (k, e)
      · simp [List.filter_cons, hq, listLookup]
      · simp [List.filter_cons, hq, listLookup_filter_none k q tl htl]
    · simp [listLookup, hk] at h
      by_cases hq : q hd
      · simp [List.filter_cons, hq, listLookup, hk, ih h hnd.2]
      · simp [List.filter_cons, hq, ih h hnd.2]

/-! Lemmas about the cache operations. -/

theorem cacheSet_config (c : CacheModel α) (key : String) (v : α) (ttl : Option Int)
    (now : Int) : (cacheSet c key v ttl now).config = c.config := by
  simp [cacheSet]

theorem listLookup_cacheSet_self (c : CacheModel α) (key : String) (v : α)
    (ttl : Option Int) (now : Int) :
    listLookup key (cacheSet c key v ttl now).store =
      some ⟨v, now, resolveTTL c.config ttl⟩ := by
  simp only [cacheSet]
  exact listLookup_listInsert_self _ _ _

theorem cacheGet_cacheSet_self (c : CacheModel α) (key : String) (v : α)
    (ttl : Option Int) (now : Int) (h : 0 ≤ resolveTTL c.config ttl) :
    (cacheGet (cacheSet c key v ttl now) key now).1 = some v := by
  simp [cacheGet, listLookup_cacheSet_self]
  rw [if_neg (by omega : ¬ resolveTTL c.config ttl < 0)]

theorem mem_of_mem_listDelete (k : String) (l : List (String × β)) (x : String × β)
    (h : x ∈ listDelete k l) : x ∈ l := by
  induction l with
  | nil => simp [listDelete] at h
  | cons hd tl ih =>
    by_cases hk : hd.1 = k
    · rw [show hd = (hd.1, hd.2) from rfl, listDelete, if_pos hk] at h
      exact List.mem_cons_of_mem _ h
    · rw [show hd = (hd.1, hd.2) from rfl, listDelete, if_neg hk] at h
      rcases List.mem_cons.mp h with h' | h'
      · exact h' ▸ List.mem_cons_self _ _
      · exact List.mem_cons_of_mem _ (ih h')

theorem cacheSet_store_small (c : CacheModel α) (key : String) (v : α) (ttl : Option Int)
    (now : Int) (hlt : c.store.length < c.config.maxSize) :
    (cacheSet c key v ttl now).store =
      listInsert key ⟨v, now, resolveTTL c.config ttl⟩ c.store := by
  simp only [cacheSet]
  rw [if_neg (by omega)]

theorem cacheSet_store_evict (c : CacheModel α) (key : String) (v : α) (ttl : Option Int)
    (now : Int) (k₀ : String) (e₀ : CacheEntry α) (rest : List (String × CacheEntry α))
    (hge : c.config.maxSize ≤ c.store.length) (hs : c.store = (k₀, e₀) :: rest)
    (hk₀ : k₀ ≠ "") :
    (cacheSet c key v ttl now).store =
      listInsert key ⟨v, now, resolveTTL c.config ttl⟩ rest := by
  simp only [cacheSet, hs]
  rw [if_pos (show ((k₀, e₀) :: rest).length ≥ c.config.maxSize from hs ▸ hge)]
  rw [if_neg hk₀]
  rw [listDelete_cons_self]

theorem cacheSet_store_length_le (c : CacheModel α) (key : String) (v : α)
    (ttl : Option Int) (now : Int) (hmax : 1 ≤ c.config.maxSize)
    (hsize : c.store.length ≤ c.config.maxSize)
    (hkeys : ∀ kv ∈ c.store, kv.1 ≠ "") :
    (cacheSet c key v ttl now).store.length ≤ c.config.maxSize := by
  by_cases hge : c.config.maxSize ≤ c.store.length
  · cases hs : c.store with
    | nil =>
      rw [hs] at hge
      simp at hge
      omega
    | cons hd rest =>
      have hk : hd.1 ≠ "" := hkeys hd (by rw [hs]; exact List.mem_cons_self _ _)
      have hev := cacheSet_store_evict c key v ttl now hd.1 hd.2 rest hge (by rw [hs]) hk
      rw [hev]
      have hlen : c.store.length = rest.length + 1 := by rw [hs]; simp
      have := listInsert_length_le key (⟨v, now, resolveTTL c.config ttl⟩ : CacheEntry α) rest
      omega
  · rw [cacheSet_store_small c key v ttl now (by omega)]
    have := listInsert_length_le key (⟨v, now, resolveTTL c.config ttl⟩ : CacheEntry α) c.store
    omega

theorem cacheSet_keys_ne (c : CacheModel α) (key : String) (v : α) (ttl : Option Int)
    (now : Int) (hkeys : ∀ kv ∈ c.store, kv.1 ≠ "") (hkey : key ≠ "") :
    ∀ kv ∈ (cacheSet c key v ttl now).store, kv.1 ≠ "" := by
  intro kv hmem
  simp only [cacheSet] at hmem
  rcases mem_of_mem_listInsert _ _ _ _ hmem with h | h
  · rw [h]
    exact hkey
  · have hc : kv ∈ c.store := by
      split at h
      · split at h
        · exact h
        · split at h
          · exact h
          · exact mem_of_mem_listDelete _ _ _ h
      · exact h
    exact hkeys kv hc

theorem applySets_config (ops : List (SetOp α)) : ∀ c : CacheModel α,
    (applySets c ops).config = c.config := by
  induction ops with
  | nil => intro c; rfl
  | cons op rest ih =>
    intro c
    rw [applySets, ih, cacheSet_config]

theorem applySets_bound (ops : List (SetOp α)) : ∀ c : CacheModel α,
    1 ≤ c.config.maxSize → c.store.length ≤ c.config.maxSize →
    (∀ kv ∈ c.store, kv.1 ≠ "") → (∀ op ∈ ops, op.key ≠ "") →
    (applySets c ops).store.length ≤ c.config.maxSize := by
  induction ops with
  | nil =>
    intro c _ h2 _ _
    exact h2
  | cons op rest ih =>
    intro c h1 h2 h3 h4
    rw [applySets]
    have hop : op.key ≠ "" := h4 op (List.mem_cons_self _ _)
    have h2' := cacheSet_store_length_le c op.key op.data op.ttl op.now h1 h2 h3
    have h3' := cacheSet_keys_ne c op.key op.data op.ttl op.now h3 hop
    have h4' : ∀ o ∈ rest, o.key ≠ "" := fun o ho => h4 o (List.mem_cons_of_mem _ ho)
    have hres := ih (cacheSet c op.key op.data op.ttl op.now)
      (by rw [cacheSet_config]; exact h1)
      (by rw [cacheSet_config]; exact h2') h3' h4'
    rw [cacheSet_config] at hres
    exact hres

/-! Lemmas about `getOrSet` with a null-valued fetcher. -/

theorem getOrSet_fetches_of_null (c : CacheModel (Option β)) (key : String)
    (fv : Option β) (ttl : Option Int) (now : Int)
    (h : ((cacheGet c key now).1.bind id) = none) :
    getOrSet c key fv ttl now = (fv, cacheSet (cacheGet c key now).2 key fv ttl now, true) := by
  rcases hget : cacheGet c key now with ⟨r, c₁⟩
  rw [hget] at h
  simp only at h
  have h2 : (r.bind fun a => a) = none := h
  simp [getOrSet, hget, h, h2]

theorem cacheGet_stored_null (c : CacheModel (Option β)) (key : String)
    (ttl : Option Int) (now now₂ : Int) :
    ((cacheGet (cacheSet c key none ttl now) key now₂).1.bind id) = none := by
  simp only [cacheGet, listLookup_cacheSet_self]
  split <;> rfl

/-! Lemmas about the processor operations. -/

theorem getPayment_payments (s : PPState) (pid : String) (now : Int) :
    (getPayment s pid now).1.payments = s.payments := by
  unfold getPayment
  split
  · rfl
  · split
    · rfl
    · rfl

theorem verifyPayment_eq_of_confirmed (s s₁ : PPState) (pid : String) (p : Payment)
    (st : SigStatus) (now : Int)
    (hget : getPayment s pid now = (s₁, some p))
    (hlvl : isConfirmedLevel st = true) :
    verifyPayment s pid (.ok st) now =
      ({ payments :=
           listInsert pid { p with status := .confirmed, confirmedAt := some now } s₁.payments,
         cache :=
           cacheSet s₁.cache (payKey pid)
             { p with status := .confirmed, confirmedAt := some now } (some hourMs) now },
       .ok { p with status := .confirmed, confirmedAt := some now }) := by
  unfold verifyPayment
  rw [hget]
  simp [hlvl]

theorem verifyPayment_oracle_error_parts (s : PPState) (pid : String) (e : String)
    (t : Int) :
    (∃ err, (verifyPayment s pid (.error e) t).2 = .error err) ∧
    (verifyPayment s pid (.error e) t).1.payments = s.payments := by
  have hp := getPayment_payments s pid t
  unfold verifyPayment
  rcases hg : getPayment s pid t with ⟨s₁, r⟩
  rw [hg] at hp
  simp only at hp
  cases r <;> simp [hp]

theorem checkOnce_error (s : PPState) (pid : String) (attempts : Nat) (e : String)
    (t : Int) :
    checkOnce s pid attempts (.error e) t =
      ((verifyPayment s pid (.error e) t).1, attempts, false) := by
  unfold checkOnce
  obtain ⟨⟨err, herr⟩, -⟩ := verifyPayment_oracle_error_parts s pid e t
  rcases hv : verifyPayment s pid (.error e) t with ⟨s₁, r⟩
  rw [hv] at herr
  simp only at herr
  rw [herr]

/-! Lemmas about the sort used by `listPayments`. -/

theorem sortByCreatedAtDesc_sorted (ps : List Payment) :
    (sortByCreatedAtDesc ps).Pairwise (fun a b => b.createdAt ≤ a.createdAt) := by
  have h : List.Sorted (fun a b : Payment => b.createdAt ≤ a.createdAt)
      (List.insertionSort (fun a b : Payment => b.createdAt ≤ a.createdAt) ps) :=
    List.sorted_insertionSort _ ps
  exact h

theorem listPayments_sorted_pairwise (payments : List (String × Payment))
    (opts : ListOptions) :
    (listPayments payments opts).Pairwise (fun a b => b.createdAt ≤ a.createdAt) := by
  unfold listPayments
  exact ((sortByCreatedAtDesc_sorted _).sublist (List.drop_sublist _ _)).sublist
    (List.take_sublist _ _)


/-! ## Claim theorems -/

/-- Claim C1 (counterexample): verifyPayment on a payment already in the
terminal state FAILED, with the oracle reporting finalized, changes its
status to CONFIRMED and stamps confirmedAt, so a payment in a terminal state
does not keep its status and confirmedAt whatever the oracle reports. -/
theorem c1_terminal_not_sticky_cex :
    exPaymentFailed.status = PaymentStatus.failed ∧
    (verifyPayment exStateFailed "p1" (.ok exOracleFinalized) 100).2 =
      .ok { exPaymentFailed with status := .confirmed, confirmedAt := some 100 } ∧
    PaymentStatus.failed ≠ PaymentStatus.confirmed :=
  ⟨rfl, rfl, by decide⟩

/-- Claim C1 (amended): verifyPayment never consults the current status: when
the oracle reports confirmed or finalized, the payment is set to CONFIRMED
with confirmedAt restamped to the clock and persisted, even when its status
was already terminal (CONFIRMED, FAILED, or CANCELLED). -/
theorem c1_verifyPayment_ignores_terminal
    (s s₁ : PPState) (pid : String) (p : Payment) (st : SigStatus) (now : Int)
    (hget : getPayment s pid now = (s₁, some p))
    (_hterm : p.status = .confirmed ∨ p.status = .failed ∨ p.status = .cancelled)
    (hlvl : isConfirmedLevel st = true) :
    (verifyPayment s pid (.ok st) now).2 =
      .ok { p with status := .confirmed, confirmedAt := some now } ∧
    listLookup pid (verifyPayment s pid (.ok st) now).1.payments =
      some { p with status := .confirmed, confirmedAt := some now } := by
  have hv := verifyPayment_eq_of_confirmed s s₁ pid p st now hget hlvl
  rw [hv]
  exact ⟨rfl, listLookup_listInsert_self _ _ _⟩

/-- Witness for the amended C1, at a CANCELLED payment. -/
theorem c1_witness :
    (verifyPayment exStateCancelled "p2" (.ok exOracleFinalized) 50).2 =
      .ok { exPaymentCancelled with status := .confirmed, confirmedAt := some 50 } ∧
    listLookup "p2" (verifyPayment exStateCancelled "p2" (.ok exOracleFinalized) 50).1.payments =
      some { exPaymentCancelled with status := .confirmed, confirmedAt := some 50 } :=
  c1_verifyPayment_ignores_terminal exStateCancelled
    (getPayment exStateCancelled "p2" 50).1 "p2" exPaymentCancelled exOracleFinalized 50
    rfl (Or.inr (Or.inr rfl)) rfl

/-- Claim C2 (counterexample): with a pending payment and a polling trace
whose first check throws and whose second would report finalized, the monitor
halts at the error: the attempt counter stays 0, the second response is never
consumed and the payment remains PENDING, so polling does not continue
through transient errors. -/
theorem c2_monitor_stops_on_first_error_cex :
    (runMonitor exStatePending "p3" 0 exTraceC2).2 = 0 ∧
    listLookup "p3" (runMonitor exStatePending "p3" 0 exTraceC2).1.payments =
      some exPaymentPending ∧
    exPaymentPending.status = PaymentStatus.pending :=
  ⟨rfl, rfl, rfl⟩

/-- Claim C2 (amended): an error during a check is caught — the loop returns
normally, nothing propagates to any caller — but the catch neither advances
the attempt counter nor schedules another check: the monitor halts at the
error with the counter unchanged, ignoring the rest of the trace, and the
authoritative payments map is exactly as before the failed check. -/
theorem c2_monitor_error_halts (s : PPState) (pid : String) (attempts : Nat)
    (e : String) (t : Int) (rest : List (Except String SigStatus × Int)) :
    runMonitor s pid attempts ((.error e, t) :: rest) =
      ((verifyPayment s pid (.error e) t).1, attempts) ∧
    (verifyPayment s pid (.error e) t).1.payments = s.payments := by
  constructor
  · rw [runMonitor, checkOnce_error]
    simp
  · exact (verifyPayment_oracle_error_parts s pid e t).2

/-- Claim C3: processPayment on a request with amount zero or negative always
fails with the InvalidPayment validation error and returns the state — in
particular the authoritative payments map — unchanged. -/
theorem c3_nonpositive_amount_rejected (s : PPState) (req : PaymentRequest)
    (userId : String) (opts : ProcessPaymentOptions) (env : ProcEnv)
    (h : req.amount ≤ 0) :
    processPayment s req userId opts env = (s, .error .invalidAmount) ∧
    PayErr.isInvalidPayment .invalidAmount = true := by
  have hv : validatePaymentRequest req env = .error .invalidAmount := by
    unfold validatePaymentRequest
    rw [if_pos h]
  exact ⟨by simp [processPayment, hv], rfl⟩

/-- Witness for C3, at a request with amount 0. -/
theorem c3_witness :
    processPayment exEmptyState exReqZero "u1" {} exEnv =
      (exEmptyState, .error .invalidAmount) ∧
    PayErr.isInvalidPayment .invalidAmount = true :=
  c3_nonpositive_amount_rejected exEmptyState exReqZero "u1" {} exEnv (by decide)

/-- Claim C4: for a stored entry, get returns absent — deleting the entry —
exactly when the elapsed time strictly exceeds the entry ttl, and returns the
stored value otherwise; and the observable result of get is the same whether
or not the background sweep has run at any earlier clock. -/
theorem c4_get_lazy_expiry (c : CacheModel α) (key : String) (e : CacheEntry α)
    (now swp : Int) (hl : listLookup key c.store = some e)
    (hnd : (c.store.map Prod.fst).Nodup) :
    (now - e.timestamp > e.ttl →
      cacheGet c key now = (none, { c with store := listDelete key c.store })) ∧
    (now - e.timestamp ≤ e.ttl → cacheGet c key now = (some e.data, c)) ∧
    (swp ≤ now → (cacheGet (cacheCleanup c swp) key now).1 = (cacheGet c key now).1) := by
  refine ⟨?_, ?_, ?_⟩
  · intro hexp
    simp [cacheGet, hl, hexp]
  · intro hlive
    simp [cacheGet, hl, show ¬ now - e.timestamp > e.ttl by omega]
  · intro hswp
    have hfl := listLookup_filter_of_nodup key e
      (fun p => decide (swp - p.2.timestamp ≤ p.2.ttl)) c.store hl hnd
    by_cases hq : swp - e.timestamp ≤ e.ttl
    · rw [if_pos (by simpa using hq)] at hfl
      simp only [cacheGet, cacheCleanup, hfl, hl]
      by_cases hexp : now - e.timestamp > e.ttl
      · rw [if_pos hexp, if_pos hexp]
      · rw [if_neg hexp, if_neg hexp]
    · rw [if_neg (by simpa using hq)] at hfl
      have hexp : now - e.timestamp > e.ttl := by omega
      simp only [cacheGet, cacheCleanup, hfl, hl]
      rw [if_pos hexp]

/-- Witness for C4: an entry with ttl 1000 stored at time 0, read at 2000
after a sweep at 1500. -/
theorem c4_witness :
    ((2000 : Int) - (⟨7, 0, 1000⟩ : CacheEntry Nat).timestamp >
        (⟨7, 0, 1000⟩ : CacheEntry Nat).ttl →
      cacheGet exCacheC4 "k" 2000 =
        (none, { exCacheC4 with store := listDelete "k" exCacheC4.store })) ∧
    ((2000 : Int) - (⟨7, 0, 1000⟩ : CacheEntry Nat).timestamp ≤
        (⟨7, 0, 1000⟩ : CacheEntry Nat).ttl →
      cacheGet exCacheC4 "k" 2000 = (some (⟨7, 0, 1000⟩ : CacheEntry Nat).data, exCacheC4)) ∧
    ((1500 : Int) ≤ 2000 →
      (cacheGet (cacheCleanup exCacheC4 1500) "k" 2000).1 = (cacheGet exCacheC4 "k" 2000).1) :=
  c4_get_lazy_expiry exCacheC4 "k" ⟨7, 0, 1000⟩ 2000 1500 (by decide) (by decide)

/-- Claim C5 (counterexample): with maxSize configured 0, a single set on the
empty store yields one stored entry, strictly exceeding maxSize, so the
capacity bound fails for that configuration. -/
theorem c5_capacity_cex :
    exCacheMax0.config.maxSize = 0 ∧
    exCacheMax0.store.length ≤ exCacheMax0.config.maxSize ∧
    (cacheSet exCacheMax0 "k" 7 none 0).store.length = 1 := by
  decide

/-- Claim C5 (amended): provided maxSize is at least 1 and no key written is
the empty string, any sequence of sets from the empty store keeps the entry
count within maxSize; and a set with a fresh key on a full store whose oldest
key is non-empty evicts exactly that oldest binding before appending, leaving
the count unchanged. -/
theorem c5_capacity_bound (c : CacheModel α) (ops : List (SetOp α))
    (hmax : 1 ≤ c.config.maxSize) (hstart : c.store = [])
    (hops : ∀ op ∈ ops, op.key ≠ "") :
    (applySets c ops).store.length ≤ c.config.maxSize ∧
    (∀ (d : CacheModel α) (key : String) (v : α) (ttl : Option Int) (now : Int)
        (k₀ : String) (e₀ : CacheEntry α) (rest : List (String × CacheEntry α)),
      d.store = (k₀, e₀) :: rest → d.config.maxSize ≤ d.store.length → k₀ ≠ "" →
      listLookup key d.store = none →
      (cacheSet d key v ttl now).store =
        rest ++ [(key, ⟨v, now, resolveTTL d.config ttl⟩)] ∧
      (cacheSet d key v ttl now).store.length = d.store.length) := by
  constructor
  · exact applySets_bound ops c hmax (by rw [hstart]; simp) (by rw [hstart]; simp) hops
  · intro d key v ttl now k₀ e₀ rest hs hge hk₀ hfresh
    rw [hs] at hfresh
    have hsplit : listLookup key rest = none := by
      by_cases hkk : k₀ = key
      · simp [listLookup, hkk] at hfresh
      · simpa [listLookup, hkk] using hfresh
    have hev := cacheSet_store_evict d key v ttl now k₀ e₀ rest hge hs hk₀
    constructor
    · rw [hev, listInsert_eq_append_of_not_mem key _ rest hsplit]
    · rw [hev, listInsert_length_of_not_mem key _ rest hsplit, hs]
      simp

/-- Witness for the amended C5: two fresh-key writes against an empty cache
with maxSize 1. -/
theorem c5_witness :
    (applySets exCacheMax1 exOpsC5).store.length ≤ exCacheMax1.config.maxSize ∧
    (∀ (d : CacheModel Nat) (key : String) (v : Nat) (ttl : Option Int) (now : Int)
        (k₀ : String) (e₀ : CacheEntry Nat) (rest : List (String × CacheEntry Nat)),
      d.store = (k₀, e₀) :: rest → d.config.maxSize ≤ d.store.length → k₀ ≠ "" →
      listLookup key d.store = none →
      (cacheSet d key v ttl now).store =
        rest ++ [(key, ⟨v, now, resolveTTL d.config ttl⟩)] ∧
      (cacheSet d key v ttl now).store.length = d.store.length) :=
  c5_capacity_bound exCacheMax1 exOpsC5 (by decide) rfl (by decide)

/-- Claim C6 (counterexample): with stored payments whose userIds are alice
and bob, listPayments given the filter userId = empty string returns both
payments — the source skips falsy filters — even though neither userId equals
the supplied value, while the spec-worded listing returns none; so supplied
fields are not always matched by equality. -/
theorem c6_empty_filter_cex :
    listPayments exPaymentsList { userId := some "" } = [exPaymentBob, exPaymentAlice] ∧
    exPaymentBob.userId ≠ "" ∧
    listPaymentsSpec exPaymentsList { userId := some "" } = [] :=
  ⟨rfl, by decide, rfl⟩

/-- Claim C6 (amended): when every supplied string filter is non-empty — the
empty string is falsy and its filter is skipped by the source — listPayments
returns exactly the stored payments matching all supplied fields by equality,
sorted by createdAt descending with offset then limit applied after sorting:
it coincides with the listing written from the words of the spec, and its
output is pairwise sorted descending. -/
theorem c6_list_matches_spec (payments : List (String × Payment)) (opts : ListOptions)
    (hu : opts.userId ≠ some "") (ha : opts.agentId ≠ some "") :
    listPayments payments opts = listPaymentsSpec payments opts ∧
    (listPayments payments opts).Pairwise (fun a b => b.createdAt ≤ a.createdAt) := by
  refine ⟨?_, listPayments_sorted_pairwise payments opts⟩
  rcases hu' : opts.userId with _ | u
  · rcases ha' : opts.agentId with _ | a
    · simp [listPayments, listPaymentsSpec, hu', ha']
    · have ha2 : a ≠ "" := fun hh => ha (by rw [ha', hh])
      simp [listPayments, listPaymentsSpec, hu', ha', ha2]
  · have hu2 : u ≠ "" := fun hh => hu (by rw [hu', hh])
    rcases ha' : opts.agentId with _ | a
    · simp [listPayments, listPaymentsSpec, hu', ha', hu2]
    · have ha2 : a ≠ "" := fun hh => ha (by rw [ha', hh])
      simp [listPayments, listPaymentsSpec, hu', ha', hu2, ha2]

/-- Witness for the amended C6, with filter userId alice. -/
theorem c6_witness :
    listPayments exPaymentsList { userId := some "alice" } =
      listPaymentsSpec exPaymentsList { userId := some "alice" } ∧
    (listPayments exPaymentsList { userId := some "alice" }).Pairwise
      (fun a b => b.createdAt ≤ a.createdAt) :=
  c6_list_matches_spec exPaymentsList { userId := some "alice" } (by decide) (by decide)

/-- Claim C7: when the oracle reports confirmed or finalized for a payment
that getPayment finds, verifyPayment returns it with status CONFIRMED and a
non-null confirmedAt, and the updated record is persisted to both the
authoritative map and the cache. -/
theorem c7_verifyPayment_confirms (s s₁ : PPState) (pid : String) (p : Payment)
    (st : SigStatus) (now : Int)
    (hget : getPayment s pid now = (s₁, some p))
    (hlvl : isConfirmedLevel st = true) :
    (verifyPayment s pid (.ok st) now).2 =
      .ok { p with status := .confirmed, confirmedAt := some now } ∧
    listLookup pid (verifyPayment s pid (.ok st) now).1.payments =
      some { p with status := .confirmed, confirmedAt := some now } ∧
    (cacheGet (verifyPayment s pid (.ok st) now).1.cache (payKey pid) now).1 =
      some { p with status := .confirmed, confirmedAt := some now } ∧
    ({ p with status := .confirmed, confirmedAt := some now } : Payment).confirmedAt ≠ none := by
  have hv := verifyPayment_eq_of_confirmed s s₁ pid p st now hget hlvl
  rw [hv]
  refine ⟨rfl, listLookup_listInsert_self _ _ _, ?_, by simp⟩
  exact cacheGet_cacheSet_self s₁.cache (payKey pid) _ (some hourMs) now
    (by norm_num [resolveTTL, hourMs])

/-- Witness for C7, at the pending payment with a finalized oracle report. -/
theorem c7_witness :
    (verifyPayment exStatePending "p3" (.ok exOracleFinalized) 100).2 =
      .ok { exPaymentPending with status := .confirmed, confirmedAt := some 100 } ∧
    listLookup "p3" (verifyPayment exStatePending "p3" (.ok exOracleFinalized) 100).1.payments =
      some { exPaymentPending with status := .confirmed, confirmedAt := some 100 } ∧
    (cacheGet (verifyPayment exStatePending "p3" (.ok exOracleFinalized) 100).1.cache
        (payKey "p3") 100).1 =
      some { exPaymentPending with status := .confirmed, confirmedAt := some 100 } ∧
    ({ exPaymentPending with status := .confirmed, confirmedAt := some 100 } : Payment).confirmedAt ≠
      none :=
  c7_verifyPayment_confirms exStatePending (getPayment exStatePending "p3" 100).1 "p3"
    exPaymentPending exOracleFinalized 100 rfl rfl

/-- Claim C8: a request that passes validation, with a connected wallet and a
currency other than the literal SOL, always fails with NotImplemented — the
SPL-token path throws — and the state, hence the payments map, is returned
unchanged so no Payment record is created. -/
theorem c8_non_sol_not_implemented (s : PPState) (req : PaymentRequest)
    (userId : String) (opts : ProcessPaymentOptions) (env : ProcEnv)
    (hval : validatePaymentRequest req env = .ok ())
    (hconn : env.walletConnected = true)
    (hcur : req.currency ≠ "SOL") :
    processPayment s req userId opts env = (s, .error .notImplemented) := by
  simp [processPayment, hval, hconn, hcur]

/-- Witness for C8, at a valid USDC request. -/
theorem c8_witness :
    processPayment exEmptyState exReqUSDC "u1" {} exEnv =
      (exEmptyState, .error .notImplemented) :=
  c8_non_sol_not_implemented exEmptyState exReqUSDC "u1" {} exEnv rfl rfl (by decide)

/-- Claim C9 (counterexample): at capacity with the oldest stored key being
the empty string, set on the already-present key b evicts nothing — the
source deletes the oldest key only when it is truthy, and the empty string is
falsy — so no unrelated entry is deleted and the number of stored keys does
not drop, even though the overwritten key is not the oldest. -/
theorem c9_empty_oldest_no_evict_cex :
    exCacheC9e.store.length = exCacheC9e.config.maxSize ∧
    (cacheSet exCacheC9e "b" 9 none 5).store.length = exCacheC9e.store.length ∧
    listLookup "" (cacheSet exCacheC9e "b" 9 none 5).store =
      some (⟨1, 0, 1000⟩ : CacheEntry Nat) := by
  decide

/-- Claim C9 (amended): at capacity, provided the oldest stored key is
non-empty (the truthiness guard evicts only then), set with an
already-present key still evicts the oldest binding before overwriting in
place: the oldest key disappears, the overwritten key survives with the new
entry, and the number of stored keys drops by one. -/
theorem c9_overwrite_still_evicts (c : CacheModel α) (key : String) (v : α)
    (ttl : Option Int) (now : Int) (k₀ : String) (e₀ : CacheEntry α)
    (rest : List (String × CacheEntry α))
    (hs : c.store = (k₀, e₀) :: rest)
    (hge : c.config.maxSize ≤ c.store.length)
    (hk₀ : k₀ ≠ "") (hne : key ≠ k₀)
    (hmem : (listLookup key rest).isSome)
    (hnd : (c.store.map Prod.fst).Nodup) :
    (cacheSet c key v ttl now).store.length = c.store.length - 1 ∧
    listLookup k₀ (cacheSet c key v ttl now).store = none ∧
    listLookup key (cacheSet c key v ttl now).store =
      some ⟨v, now, resolveTTL c.config ttl⟩ := by
  have hev := cacheSet_store_evict c key v ttl now k₀ e₀ rest hge hs hk₀
  have hlen : c.store.length = rest.length + 1 := by rw [hs]; simp
  refine ⟨?_, ?_, ?_⟩
  · rw [hev, listInsert_length_of_mem key _ rest hmem]
    omega
  · rw [hev, listLookup_listInsert_ne key k₀ _ rest (Ne.symm hne)]
    apply listLookup_eq_none_of_not_mem
    rw [hs] at hnd
    exact (List.nodup_cons.mp (by simpa using hnd)).1
  · rw [hev]
    exact listLookup_listInsert_self _ _ _

/-- Witness for C9: overwriting key b in a full two-entry cache whose oldest
key is a. -/
theorem c9_witness :
    (cacheSet exCacheC9 "b" 9 none 5).store.length = exCacheC9.store.length - 1 ∧
    listLookup "a" (cacheSet exCacheC9 "b" 9 none 5).store = none ∧
    listLookup "b" (cacheSet exCacheC9 "b" 9 none 5).store =
      some ⟨9, 5, resolveTTL exCacheC9.config none⟩ :=
  c9_overwrite_still_evicts exCacheC9 "b" 9 none 5 "a" ⟨1, 0, 1000⟩ [("b", ⟨2, 0, 1000⟩)]
    rfl (by decide) (by decide) (by decide) (by decide) (by decide)

/-- Claim C10: get conflates a stored null with absence, so with a supplier
resolving to null, getOrSet invokes the supplier and returns null on the
first call and again on any later call against the state the first call
produced, whatever the clock — the null result is never served from the
cache even inside the ttl window. -/
theorem c10_getOrSet_null_refetches (c : CacheModel (Option β)) (key : String)
    (ttl : Option Int) (now₁ : Int)
    (h : ((cacheGet c key now₁).1.bind id) = none) :
    (getOrSet c key none ttl now₁).1 = none ∧
    (getOrSet c key none ttl now₁).2.2 = true ∧
    (∀ (ttl₂ : Option Int) (now₂ : Int),
      (getOrSet (getOrSet c key none ttl now₁).2.1 key none ttl₂ now₂).1 = none ∧
      (getOrSet (getOrSet c key none ttl now₁).2.1 key none ttl₂ now₂).2.2 = true) := by
  have h1 := getOrSet_fetches_of_null c key none ttl now₁ h
  refine ⟨by rw [h1], by rw [h1], ?_⟩
  intro ttl₂ now₂
  have h2 : ((cacheGet ((getOrSet c key none ttl now₁).2.1) key now₂).1.bind id) = none := by
    rw [h1]
    exact cacheGet_stored_null _ key ttl now₁ now₂
  have h3 := getOrSet_fetches_of_null ((getOrSet c key none ttl now₁).2.1) key none ttl₂ now₂ h2
  exact ⟨by rw [h3], by rw [h3]⟩

/-- Witness for C10, starting from the empty cache. -/
theorem c10_witness :
    (getOrSet exCacheOpt "k" none none 0).1 = none ∧
    (getOrSet exCacheOpt "k" none none 0).2.2 = true ∧
    (∀ (ttl₂ : Option Int) (now₂ : Int),
      (getOrSet (getOrSet exCacheOpt "k" none none 0).2.1 "k" none ttl₂ now₂).1 = none ∧
      (getOrSet (getOrSet exCacheOpt "k" none none 0).2.1 "k" none ttl₂ now₂).2.2 = true) :=
  c10_getOrSet_null_refetches exCacheOpt "k" none 0 rfl


end AgentChain
